import Mathlib

/-!
Verification of the two infrastructure subsystems of the TATTOO-CONTEST
repository against its specification:

* `RR`: the Delivery Reliability Layer (`src/lib/realtime-reliability.js`) —
  per-client bounded TTL message queues, queued-message drain on reconnection,
  exponential backoff advice, health reporting, shutdown.
* `AP`: the Durable Store (`src/lib/atomic-persistence.js`) — backup
  snapshots, write-ahead log, atomic temp-file-then-rename writes with retry,
  load-time recovery.

Both are shallowly embedded: the mutable JS state (per-client queues, the
data/backup/WAL/temp files) becomes explicit state values, `Date.now()`
becomes an explicit `now : Int` parameter, `Math.random` identifiers become
explicit string parameters, `socket.emit` (which can throw) becomes a boolean
outcome oracle, and transient I/O faults become an explicit fault plan.
JS exceptions become `Except` results threaded together with the state, so a
throw preserves all mutations made before it, exactly as in JS.
-/

namespace RR

/-- One queued message, as built in `queueMessage`
(`{event, data, queuedAt, ttl, priority}`). Time values are `Int`
(JS millisecond timestamps). -/
structure QueuedMessage (α : Type) where
  event : String
  data : α
  queuedAt : Int
  ttl : Int
  priority : Int
deriving DecidableEq, Repr

/-- `options.x || default` for a `Nat`-valued configuration option: absent or
zero (falsy) yields the default. Used by the `RealtimeReliability`
constructor for every numeric option. -/
def resolveOr (dflt : Nat) (o : Option Nat) : Nat :=
  match o with
  | none => dflt
  | some 0 => dflt
  | some (n + 1) => n + 1

/-- `options.x !== false` for the boolean feature switches. -/
def resolveFlag (o : Option Bool) : Bool :=
  match o with
  | some false => false
  | _ => true

/-- The constructor's option bag (fields of `options`). -/
structure RROptions where
  heartbeatInterval : Option Nat
  heartbeatTimeout : Option Nat
  maxQueueSize : Option Nat
  maxBackoffDelay : Option Nat
  initialBackoffDelay : Option Nat
  backoffMultiplier : Option Nat
  enableQueueing : Option Bool
  enableHeartbeat : Option Bool
  enableMetrics : Option Bool

/-- The resolved `this.config` of `RealtimeReliability`. -/
structure RRConfig where
  heartbeatInterval : Nat
  heartbeatTimeout : Nat
  maxQueueSize : Nat
  maxBackoffDelay : Nat
  initialBackoffDelay : Nat
  backoffMultiplier : Nat
  enableQueueing : Bool
  enableHeartbeat : Bool
  enableMetrics : Bool
deriving Repr

/-- The constructor body: each option defaulted exactly as in the source
(`options.heartbeatInterval || 30000`, …, `options.enableQueueing !== false`). -/
def mkConfig (o : RROptions) : RRConfig where
  heartbeatInterval := resolveOr 30000 o.heartbeatInterval
  heartbeatTimeout := resolveOr 45000 o.heartbeatTimeout
  maxQueueSize := resolveOr 1000 o.maxQueueSize
  maxBackoffDelay := resolveOr 30000 o.maxBackoffDelay
  initialBackoffDelay := resolveOr 1000 o.initialBackoffDelay
  backoffMultiplier := resolveOr 2 o.backoffMultiplier
  enableQueueing := resolveFlag o.enableQueueing
  enableHeartbeat := resolveFlag o.enableHeartbeat
  enableMetrics := resolveFlag o.enableMetrics

/-- `options.ttl || 300000`: the message TTL, defaulting (also on falsy 0)
to five minutes. -/
def ttlOrDefault (ttlOpt : Option Int) : Int :=
  match ttlOpt with
  | none => 300000
  | some t => if t = 0 then 300000 else t

/-- `options.priority || 0`. -/
def prioOrDefault (p : Option Int) : Int := p.getD 0

/-- The queue-capacity step of `queueMessage`: if the queue already holds at
least `maxQueueSize` messages the oldest one is shifted off, then the new
message is pushed at the back. -/
def enqueue (maxQueueSize : Nat) (queue : List (QueuedMessage α))
    (m : QueuedMessage α) : List (QueuedMessage α) :=
  (if maxQueueSize ≤ queue.length then queue.tail else queue) ++ [m]

/-- Result of the `_deliverQueuedMessages` while-loop: the messages emitted,
the expired messages dropped, and what remains queued. -/
structure DrainResult (α : Type) where
  delivered : List (QueuedMessage α)
  expired : List (QueuedMessage α)
  finalQueue : List (QueuedMessage α)
deriving DecidableEq, Repr

/-- The while-loop of `_deliverQueuedMessages`: shift messages in FIFO order;
a message whose age exceeds its TTL is dropped as expired; otherwise it is
emitted (`emitOk` says whether `socket.emit` succeeds); if the emit throws the
message is unshifted back to the front and the loop breaks. `now` is read
once before the loop, as in the source. -/
def deliverLoop (emitOk : String → α → Bool) (now : Int) :
    List (QueuedMessage α) → DrainResult α
  | [] => ⟨[], [], []⟩
  | m :: rest =>
    if now - m.queuedAt > m.ttl then
      let r := deliverLoop emitOk now rest
      ⟨r.delivered, m :: r.expired, r.finalQueue⟩
    else if emitOk m.event m.data then
      let r := deliverLoop emitOk now rest
      ⟨m :: r.delivered, r.expired, r.finalQueue⟩
    else
      ⟨[], [], m :: rest⟩

/-- `_deliverQueuedMessages` gate: nothing happens for an empty queue or a
client that is absent, socketless or unhealthy (`connected = false`). -/
def deliverQueuedMessages (emitOk : String → α → Bool) (now : Int)
    (connected : Bool) (queue : List (QueuedMessage α)) : DrainResult α :=
  if queue.isEmpty then ⟨[], [], queue⟩
  else if connected then deliverLoop emitOk now queue
  else ⟨[], [], queue⟩

/-- Observable outcome of one `queueMessage` call: the client's queue
afterwards, the messages delivered and expired during the call, and the
increments of the `messagesQueued` / `messagesDelivered` metrics. -/
structure QMOutcome (α : Type) where
  queue : List (QueuedMessage α)
  deliveredNow : List (QueuedMessage α)
  expiredNow : List (QueuedMessage α)
  queuedDelta : Nat
  deliveredDelta : Nat
deriving DecidableEq, Repr

/-- `queueMessage(clientId, event, data, options)` for one client.
`connected` stands for `client && client.socket && client.isHealthy`.
With queueing disabled it falls through to `_sendToClient` (which, with
queueing disabled, emits when the client is available and otherwise reports
failure without touching any queue). With queueing enabled the message is
appended (evicting the oldest at capacity) and, if the client is connected,
`_deliverQueuedMessages` drains the queue at once. -/
def queueMessage (cfg : RRConfig) (emitOk : String → α → Bool) (now : Int)
    (connected : Bool) (queue : List (QueuedMessage α))
    (event : String) (data : α) (ttlOpt prioOpt : Option Int) : QMOutcome α :=
  if cfg.enableQueueing = false then
    if connected && emitOk event data then ⟨queue, [], [], 0, 1⟩
    else ⟨queue, [], [], 0, 0⟩
  else
    let m : QueuedMessage α :=
      ⟨event, data, now, ttlOrDefault ttlOpt, prioOrDefault prioOpt⟩
    let q2 := enqueue cfg.maxQueueSize queue m
    if connected then
      let r := deliverLoop emitOk now q2
      ⟨r.finalQueue, r.delivered, r.expired, 1, r.delivered.length⟩
    else ⟨q2, [], [], 1, 0⟩

/-- `cleanupExpiredMessages` on one client's queue: keep exactly the
messages with `now - queuedAt <= ttl`. -/
def cleanupClientQueue (now : Int) (queue : List (QueuedMessage α)) :
    List (QueuedMessage α) :=
  queue.filter (fun m => decide (now - m.queuedAt ≤ m.ttl))

/-- `getBackoffDelay(attemptNumber)`:
`min(initialBackoffDelay * backoffMultiplier ^ attemptNumber, maxBackoffDelay)`. -/
def getBackoffDelay (cfg : RRConfig) (attemptNumber : Nat) : Nat :=
  min (cfg.initialBackoffDelay * cfg.backoffMultiplier ^ attemptNumber)
    cfg.maxBackoffDelay

/-- Per-client record stored in `connectedClients` (the socket handle itself
is outside the model). -/
structure ClientInfo where
  connectedAt : Int
  lastHeartbeat : Int
  backoffAttempts : Nat
  isHealthy : Bool
  messageCount : Nat
deriving DecidableEq, Repr

/-- The mutable registry state of a `RealtimeReliability` instance:
`connectedClients`, `messageQueue` and the set of running heartbeat timers
(`heartbeatIntervals`), each keyed by client id. -/
structure RRState (α : Type) where
  connectedClients : List (String × ClientInfo)
  messageQueue : List (String × List (QueuedMessage α))
  heartbeatIntervals : List String
deriving Repr

/-- `shutdown()`: every heartbeat interval is cleared and the connection
registry is cleared; the per-client message queues are not touched (the
`server-shutdown` emits change no registry state and their errors are
ignored). -/
def shutdown (s : RRState α) : RRState α :=
  { s with heartbeatIntervals := [], connectedClients := [] }

/-- An `|| dflt` resolved option is at least 1 when the default is. -/
theorem one_le_resolveOr (d : Nat) (hd : 1 ≤ d) : ∀ o : Option Nat, 1 ≤ resolveOr d o
  | none => hd
  | some 0 => hd
  | some (n + 1) => Nat.succ_le_succ (Nat.zero_le n)

/-- The resolved queue capacity is always positive: `|| 1000` turns an absent
or zero option into the default. -/
theorem one_le_maxQueueSize (o : RROptions) : 1 ≤ (mkConfig o).maxQueueSize :=
  one_le_resolveOr 1000 (by omega) o.maxQueueSize

/-- The resolved backoff multiplier is always at least 1. -/
theorem one_le_backoffMultiplier (o : RROptions) :
    1 ≤ (mkConfig o).backoffMultiplier :=
  one_le_resolveOr 2 (by omega) o.backoffMultiplier

/-- `enqueue` keeps a queue within capacity. -/
theorem length_enqueue_le (maxQ : Nat) (h1 : 1 ≤ maxQ)
    (q : List (QueuedMessage α)) (m : QueuedMessage α)
    (hq : q.length ≤ maxQ) : (enqueue maxQ q m).length ≤ maxQ := by
  unfold enqueue
  split
  · rename_i hle
    cases q with
    | nil => simp at hle; omega
    | cons a t => simp at hq ⊢; omega
  · rename_i hlt
    simp
    omega

/-- Folding `enqueue` over a message list is a sliding window: it keeps the
last `maxQ` elements of the accumulated stream. -/
theorem foldl_enqueue_window (maxQ : Nat) (h1 : 1 ≤ maxQ)
    (msgs : List (QueuedMessage α)) :
    ∀ q : List (QueuedMessage α), q.length ≤ maxQ →
      msgs.foldl (enqueue maxQ) q = (q ++ msgs).drop ((q ++ msgs).length - maxQ) := by
  induction msgs with
  | nil =>
    intro q hq
    simp [Nat.sub_eq_zero_of_le hq]
  | cons m ms ih =>
    intro q hq
    rw [List.foldl_cons, ih _ (length_enqueue_le maxQ h1 q m hq)]
    unfold enqueue
    by_cases hc : maxQ ≤ q.length
    · rw [if_pos hc]
      cases q with
      | nil => simp at hc; omega
      | cons a t =>
        simp only [List.tail_cons, List.append_assoc, List.singleton_append,
          List.cons_append]
        have hlen : (a :: (t ++ m :: ms)).length - maxQ
            = ((t ++ m :: ms).length - maxQ) + 1 := by
          simp at hc hq ⊢
          omega
        rw [hlen, List.drop_succ_cons]
        simp
    · rw [if_neg hc]
      simp only [List.append_assoc, List.singleton_append]

/-- Unfolding `deliverLoop` on an expired head. -/
theorem deliverLoop_cons_expired {m : QueuedMessage α} {now : Int}
    (emitOk : String → α → Bool) (rest : List (QueuedMessage α))
    (h : now - m.queuedAt > m.ttl) :
    deliverLoop emitOk now (m :: rest)
      = ⟨(deliverLoop emitOk now rest).delivered,
         m :: (deliverLoop emitOk now rest).expired,
         (deliverLoop emitOk now rest).finalQueue⟩ := by
  simp [deliverLoop, h]

/-- Unfolding `deliverLoop` on a live head whose emit succeeds. -/
theorem deliverLoop_cons_ok {m : QueuedMessage α} {now : Int}
    {emitOk : String → α → Bool} (rest : List (QueuedMessage α))
    (h1 : ¬ now - m.queuedAt > m.ttl) (h2 : emitOk m.event m.data = true) :
    deliverLoop emitOk now (m :: rest)
      = ⟨m :: (deliverLoop emitOk now rest).delivered,
         (deliverLoop emitOk now rest).expired,
         (deliverLoop emitOk now rest).finalQueue⟩ := by
  simp [deliverLoop, h1, h2]

/-- Unfolding `deliverLoop` on a live head whose emit throws: the message is
put back at the front and the loop stops. -/
theorem deliverLoop_cons_fail {m : QueuedMessage α} {now : Int}
    {emitOk : String → α → Bool} (rest : List (QueuedMessage α))
    (h1 : ¬ now - m.queuedAt > m.ttl) (h2 : emitOk m.event m.data = false) :
    deliverLoop emitOk now (m :: rest) = ⟨[], [], m :: rest⟩ := by
  simp [deliverLoop, h1, h2]

/-- A drain delivers every message when nothing is expired and every emit
succeeds. -/
theorem deliverLoop_all (emitOk : String → α → Bool) (now : Int) :
    ∀ l : List (QueuedMessage α),
      (∀ m ∈ l, now - m.queuedAt ≤ m.ttl ∧ emitOk m.event m.data = true) →
      deliverLoop emitOk now l = ⟨l, [], []⟩ := by
  intro l
  induction l with
  | nil => intro _; rfl
  | cons m rest ih =>
    intro h
    have hm := h m (List.mem_cons_self m rest)
    have hr := ih (fun x hx => h x (List.mem_cons_of_mem m hx))
    simp [deliverLoop, hr, not_lt.mpr hm.1, hm.2]

end RR

/-- Claim C4: a queued message whose age exceeds its TTL (`now − queuedAt >
ttl`) is never delivered. The only path that delivers queued messages is the
`_deliverQueuedMessages` loop (used both on reconnection and when
`queueMessage` finds the client connected): every message it delivers
satisfies `now − queuedAt ≤ ttl`. The periodic `cleanupExpiredMessages` sweep
likewise retains only messages with `now − queuedAt ≤ ttl`. -/
theorem C4_expired_never_delivered {α : Type} (emitOk : String → α → Bool)
    (now : Int) (q : List (RR.QueuedMessage α)) :
    (∀ m ∈ (RR.deliverLoop emitOk now q).delivered, now - m.queuedAt ≤ m.ttl) ∧
    (∀ m ∈ RR.cleanupClientQueue now q, now - m.queuedAt ≤ m.ttl) := by
  constructor
  · induction q with
    | nil => intro m hm; simp [RR.deliverLoop] at hm
    | cons x rest ih =>
      intro m hm
      by_cases he : now - x.queuedAt > x.ttl
      · rw [RR.deliverLoop_cons_expired emitOk rest he] at hm
        exact ih m hm
      · by_cases hk : emitOk x.event x.data = true
        · rw [RR.deliverLoop_cons_ok rest he hk] at hm
          rcases List.mem_cons.mp hm with hx | hx
          · subst hx; exact not_lt.mp he
          · exact ih m hx
        · rw [RR.deliverLoop_cons_fail rest he (Bool.not_eq_true _ ▸ hk)] at hm
          simp at hm
  · intro m hm
    have := List.of_mem_filter hm
    simpa using this

/-- Claim C5: enqueuing more than `maxQueueSizePerClient` messages for one
client leaves exactly `maxQueueSizePerClient` retained, oldest discarded
first (the retained queue is the suffix of the stream), and after any
`queueMessage`-style enqueue the queue length never exceeds the configured
maximum. The capacity is the constructor-resolved `maxQueueSize`. -/
theorem C5_fifo_eviction {α : Type} (o : RR.RROptions)
    (msgs : List (RR.QueuedMessage α))
    (hlen : (RR.mkConfig o).maxQueueSize ≤ msgs.length) :
    (msgs.foldl (RR.enqueue (RR.mkConfig o).maxQueueSize) []).length
        = (RR.mkConfig o).maxQueueSize ∧
    msgs.foldl (RR.enqueue (RR.mkConfig o).maxQueueSize) []
        = msgs.drop (msgs.length - (RR.mkConfig o).maxQueueSize) ∧
    ∀ (q : List (RR.QueuedMessage α)) (m : RR.QueuedMessage α),
      q.length ≤ (RR.mkConfig o).maxQueueSize →
      (RR.enqueue (RR.mkConfig o).maxQueueSize q m).length
          ≤ (RR.mkConfig o).maxQueueSize := by
  have h1 := RR.one_le_maxQueueSize o
  have hw := RR.foldl_enqueue_window (RR.mkConfig o).maxQueueSize h1 msgs
    [] (by simp)
  simp only [List.nil_append] at hw
  refine ⟨?_, hw, fun q m hq => RR.length_enqueue_le _ h1 q m hq⟩
  rw [hw]
  simp
  omega

/-- Witness for C5 at a concrete input: capacity 2 and three messages. -/
theorem C5_fifo_eviction_witness :
    (RR.mkConfig ⟨none, none, some 2, none, none, none, none, none, none⟩).maxQueueSize
        ≤ ([⟨"a", 1, 0, 5, 0⟩, ⟨"b", 2, 0, 5, 0⟩, ⟨"c", 3, 0, 5, 0⟩] :
            List (RR.QueuedMessage Nat)).length ∧
    (([⟨"a", 1, 0, 5, 0⟩, ⟨"b", 2, 0, 5, 0⟩, ⟨"c", 3, 0, 5, 0⟩] :
        List (RR.QueuedMessage Nat)).foldl
          (RR.enqueue (RR.mkConfig ⟨none, none, some 2, none, none, none, none,
            none, none⟩).maxQueueSize) []).length
      = (RR.mkConfig ⟨none, none, some 2, none, none, none, none, none,
          none⟩).maxQueueSize :=
  ⟨by decide,
   (C5_fifo_eviction ⟨none, none, some 2, none, none, none, none, none, none⟩
      [⟨"a", 1, 0, 5, 0⟩, ⟨"b", 2, 0, 5, 0⟩, ⟨"c", 3, 0, 5, 0⟩] (by decide)).1⟩

/-- Claim C6: `_deliverQueuedMessages` drains the queue in FIFO order: the
processed prefix `pre` keeps its original order, its live messages (age within
TTL) are exactly the delivered ones and its expired messages are permanently
discarded; if an emit throws, the loop stops with the failed message requeued
at the front of the untouched remainder (`post` begins with a live message
whose emit failed), so the client's backlog is never dropped. -/
theorem C6_drain_fifo_requeue {α : Type} (emitOk : String → α → Bool)
    (now : Int) (q : List (RR.QueuedMessage α)) :
    ∃ pre post, q = pre ++ post ∧
      (RR.deliverLoop emitOk now q).delivered
          = pre.filter (fun m => decide (now - m.queuedAt ≤ m.ttl)) ∧
      (RR.deliverLoop emitOk now q).expired
          = pre.filter (fun m => decide (now - m.queuedAt > m.ttl)) ∧
      (RR.deliverLoop emitOk now q).finalQueue = post ∧
      (∀ m ∈ pre, now - m.queuedAt ≤ m.ttl → emitOk m.event m.data = true) ∧
      (∀ m t, post = m :: t →
        now - m.queuedAt ≤ m.ttl ∧ emitOk m.event m.data = false) := by
  induction q with
  | nil =>
    exact ⟨[], [], rfl, rfl, rfl, rfl, by simp, by simp⟩
  | cons x rest ih =>
    obtain ⟨pre, post, hsplit, hdel, hexp, hfin, hall, hstop⟩ := ih
    by_cases he : now - x.queuedAt > x.ttl
    · refine ⟨x :: pre, post, by rw [List.cons_append, ← hsplit], ?_, ?_, ?_, ?_, hstop⟩
      · rw [RR.deliverLoop_cons_expired emitOk rest he]
        simp [hdel, List.filter_cons]
        rw [if_neg (by omega)]
      · rw [RR.deliverLoop_cons_expired emitOk rest he]
        simp [hexp, List.filter_cons]
        rw [if_pos (by omega)]
      · rw [RR.deliverLoop_cons_expired emitOk rest he]
        exact hfin
      · intro m hm hlive
        rcases List.mem_cons.mp hm with hx | hx
        · subst hx; exact absurd hlive (not_le.mpr he)
        · exact hall m hx hlive
    · by_cases hk : emitOk x.event x.data = true
      · refine ⟨x :: pre, post, by rw [List.cons_append, ← hsplit], ?_, ?_, ?_, ?_, hstop⟩
        · rw [RR.deliverLoop_cons_ok rest he hk]
          simp [hdel, List.filter_cons]
          rw [if_pos (by omega)]
        · rw [RR.deliverLoop_cons_ok rest he hk]
          simp [hexp, List.filter_cons]
          rw [if_neg (by omega)]
        · rw [RR.deliverLoop_cons_ok rest he hk]
          exact hfin
        · intro m hm hlive
          rcases List.mem_cons.mp hm with hx | hx
          · subst hx; exact hk
          · exact hall m hx hlive
      · have hk' : emitOk x.event x.data = false := Bool.not_eq_true _ ▸ hk
        refine ⟨[], x :: rest, rfl, ?_, ?_, ?_, by simp, ?_⟩
        · rw [RR.deliverLoop_cons_fail rest he hk']
          simp
        · rw [RR.deliverLoop_cons_fail rest he hk']
          simp
        · rw [RR.deliverLoop_cons_fail rest he hk']
        · intro m t hmt
          cases hmt
          exact ⟨not_lt.mp he, hk'⟩

/-- Claim C7: `queueMessage(id, event, payload, opts)`. If the client is not
connected, the message `{event, payload, queuedAt := now, ttl, priority}` is
appended to its queue with the oldest entry evicted first at capacity. If the
client is connected (and, on the normal path, the backlog is live and the
emits succeed), the message is delivered during the same call and the
`messagesDelivered` metric is incremented by the number of delivered
messages, at least one. -/
theorem C7_queueMessage_connected_or_queued {α : Type} (o : RR.RROptions)
    (emitOk : String → α → Bool) (now : Int) (connected : Bool)
    (q : List (RR.QueuedMessage α)) (event : String) (data : α)
    (ttlOpt prioOpt : Option Int)
    (hq : (RR.mkConfig o).enableQueueing = true) :
    (connected = false →
      RR.queueMessage (RR.mkConfig o) emitOk now connected q event data ttlOpt prioOpt
        = ⟨RR.enqueue (RR.mkConfig o).maxQueueSize q
            ⟨event, data, now, RR.ttlOrDefault ttlOpt, RR.prioOrDefault prioOpt⟩,
           [], [], 1, 0⟩) ∧
    (connected = true →
      (∀ m ∈ q, now - m.queuedAt ≤ m.ttl ∧ emitOk m.event m.data = true) →
      emitOk event data = true → 0 ≤ RR.ttlOrDefault ttlOpt →
      ((⟨event, data, now, RR.ttlOrDefault ttlOpt, RR.prioOrDefault prioOpt⟩ :
          RR.QueuedMessage α)
          ∈ (RR.queueMessage (RR.mkConfig o) emitOk now connected q event data
              ttlOpt prioOpt).deliveredNow ∧
       (RR.queueMessage (RR.mkConfig o) emitOk now connected q event data
           ttlOpt prioOpt).deliveredDelta
         = (RR.queueMessage (RR.mkConfig o) emitOk now connected q event data
             ttlOpt prioOpt).deliveredNow.length ∧
       1 ≤ (RR.queueMessage (RR.mkConfig o) emitOk now connected q event data
             ttlOpt prioOpt).deliveredDelta)) := by
  constructor
  · intro hc
    subst hc
    simp [RR.queueMessage, hq]
  · intro hc hlive hev httl
    subst hc
    have hall : ∀ x ∈ RR.enqueue (RR.mkConfig o).maxQueueSize q
        ⟨event, data, now, RR.ttlOrDefault ttlOpt, RR.prioOrDefault prioOpt⟩,
        now - x.queuedAt ≤ x.ttl ∧ emitOk x.event x.data = true := by
      intro x hx
      unfold RR.enqueue at hx
      rcases List.mem_append.mp hx with hx | hx
      · have hxq : x ∈ q := by
          split at hx
          · exact (List.tail_sublist q).subset hx
          · exact hx
        exact hlive x hxq
      · have hxm : x = ⟨event, data, now, RR.ttlOrDefault ttlOpt,
            RR.prioOrDefault prioOpt⟩ := by simpa using hx
        subst hxm
        exact ⟨by simpa using httl, hev⟩
    have hrun := RR.deliverLoop_all emitOk now _ hall
    simp only [RR.queueMessage, hq, if_true, Bool.true_eq_false, if_false, hrun]
    simp [RR.enqueue]

/-- Witness for C7 at a concrete input: default options, connected client,
empty backlog, always-succeeding emit — the freshly queued message is
delivered during the call. -/
theorem C7_queueMessage_witness :
    (RR.mkConfig ⟨none, none, none, none, none, none, none, none,
        none⟩).enableQueueing = true ∧
    (⟨"e", 0, 0, RR.ttlOrDefault none, RR.prioOrDefault none⟩ :
        RR.QueuedMessage Nat)
      ∈ (RR.queueMessage
          (RR.mkConfig ⟨none, none, none, none, none, none, none, none, none⟩)
          (fun _ _ => true) 0 true [] "e" 0 none none).deliveredNow :=
  ⟨rfl,
   ((C7_queueMessage_connected_or_queued
      ⟨none, none, none, none, none, none, none, none, none⟩
      (fun _ _ => true) 0 true [] "e" 0 none none rfl).2
      rfl (by simp) rfl (by decide)).1⟩

/-- Claim C9: the backoff calculator is the pure function
`delay(attempt) = min(initialBackoffDelay * multiplier ^ attempt,
maxBackoffDelay)`; it is monotonically non-decreasing in the attempt number
(the constructor-resolved multiplier is always ≥ 1) and bounded by
`maxBackoffDelay`. -/
theorem C9_backoff_monotone_bounded (o : RR.RROptions) (a b : Nat)
    (hab : a ≤ b) :
    RR.getBackoffDelay (RR.mkConfig o) a ≤ RR.getBackoffDelay (RR.mkConfig o) b ∧
    RR.getBackoffDelay (RR.mkConfig o) a ≤ (RR.mkConfig o).maxBackoffDelay :=
  ⟨min_le_min
      (Nat.mul_le_mul le_rfl
        (Nat.pow_le_pow_right (RR.one_le_backoffMultiplier o) hab))
      le_rfl,
    min_le_right _ _⟩

/-- Witness for C9 at a concrete input: default options, attempts 2 ≤ 5. -/
theorem C9_backoff_witness :
    (2 : Nat) ≤ 5 ∧
    (RR.getBackoffDelay
        (RR.mkConfig ⟨none, none, none, none, none, none, none, none, none⟩) 2
      ≤ RR.getBackoffDelay
        (RR.mkConfig ⟨none, none, none, none, none, none, none, none, none⟩) 5 ∧
     RR.getBackoffDelay
        (RR.mkConfig ⟨none, none, none, none, none, none, none, none, none⟩) 2
      ≤ (RR.mkConfig ⟨none, none, none, none, none, none, none, none,
          none⟩).maxBackoffDelay) :=
  ⟨by decide,
   C9_backoff_monotone_bounded ⟨none, none, none, none, none, none, none, none, none⟩ 2 5 (by decide)⟩

/-- Claim C10: `shutdown()` stops every heartbeat timer and clears the
connection registry, but leaves every per-client message queue and its
queued messages unchanged. -/
theorem C10_shutdown_preserves_queues {α : Type} (s : RR.RRState α) :
    (RR.shutdown s).messageQueue = s.messageQueue ∧
    (RR.shutdown s).heartbeatIntervals = [] ∧
    (RR.shutdown s).connectedClients = [] :=
  ⟨rfl, rfl, rfl⟩

namespace AP

/-- Contents of a JSON file: either the serialization of a value `v` (which
`JSON.parse` recovers, the round trip being the identity on serializable
values) or unparsable bytes. -/
inductive FileData (α : Type) where
  | good (v : α)
  | corrupt
deriving DecidableEq, Repr

/-- WAL entry status as stored on disk. -/
inductive WalStatus where
  | pending
  | completed
  | recovered
deriving DecidableEq, Repr

/-- One WAL file's contents: `{timestamp, operation, data, status}` plus the
`completedAt` stamp added on completion (the `data` payload is never read
back and is omitted). -/
structure WalEntry where
  timestamp : Int
  operation : String
  status : WalStatus
  completedAt : Option Int
deriving DecidableEq, Repr

/-- The on-disk state owned by one `AtomicPersistence` instance: the
destination file (`none` when absent), the backup directory, the WAL
directory, and the temp directory (name and mtime; temp contents are never
read back after a rename). Directory listings are association lists in
directory order. -/
structure FS (α : Type) where
  dataFile : Option (FileData α)
  backups : List (String × FileData α)
  wal : List (String × WalEntry)
  temp : List (String × Int)
deriving DecidableEq, Repr

/-- JS `String.prototype.startsWith`, structurally on the character lists
(ASCII names only are at play). -/
def strStartsWith (s pref : String) : Bool :=
  List.isPrefixOf pref.toList s.toList

/-- Lexicographic comparison of two names by character code — the order JS
`Array.prototype.sort()` applies to backup filenames. -/
def strLt : List Char → List Char → Bool
  | [], [] => false
  | [], _ :: _ => true
  | _ :: _, [] => false
  | x :: xs, y :: ys => if x < y then true else if y < x then false else strLt xs ys

/-- JS `String.prototype.split` at a one-character separator. -/
def splitOnChar (c : Char) : List Char → List (List Char)
  | [] => [[]]
  | x :: xs =>
    if x = c then [] :: splitOnChar c xs
    else
      match splitOnChar c xs with
      | [] => [[x]]
      | g :: gs => (x :: g) :: gs

/-- `fs.writeFileSync`: overwrite the file of that name or create it. -/
def putFile (l : List (String × β)) (name : String) (c : β) : List (String × β) :=
  if l.any (fun p => p.1 == name) then
    l.map (fun p => if p.1 == name then (name, c) else p)
  else l ++ [(name, c)]

/-- `fs.readFileSync` through the directory listing. -/
def lookupFile (l : List (String × β)) (name : String) : Option β :=
  (l.find? (fun p => p.1 == name)).map (fun p => p.2)

/-- `fs.unlinkSync` / the disappearance of a renamed temp file. -/
def eraseFile (l : List (String × β)) (name : String) : List (String × β) :=
  l.filter (fun p => !(p.1 == name))

/-- `_generateBackupName(operation)`:
`` `${operation}-${timestamp}-${hash}.json` ``. -/
def generateBackupName (operation : String) (now : Int) (hash : String) : String :=
  operation ++ "-" ++ toString now ++ "-" ++ hash ++ ".json"

/-- `_generateWalName()`: `` `wal-${timestamp}-${hash}.json` ``. -/
def generateWalName (now : Int) (hash : String) : String :=
  "wal-" ++ toString now ++ "-" ++ hash ++ ".json"

/-- The decimal digits `parseInt` consumes from the front of a string. -/
def leadingDigits (s : List Char) : List Char :=
  s.takeWhile (fun c => c.isDigit)

/-- Value of a digit list in base 10. -/
def digitsToNat (ds : List Char) : Nat :=
  ds.foldl (fun n c => 10 * n + (c.toNat - 48)) 0

/-- JS `parseInt` on the strings at hand: the leading decimal digits, `none`
for NaN (no leading digit). -/
def parseIntJS (s : List Char) : Option Nat :=
  let ds := leadingDigits s
  if ds.isEmpty then none else some (digitsToNat ds)

/-- The sort key of `_cleanupOldBackups`: `parseInt(f.split('-')[1]) || 0`.
For `backup-<ts>-<hash>.json` this is the timestamp; for
`pre-write-<ts>-<hash>.json` the second dash-field is `write`, so the key is
0 (faithfully reproducing the source's parsing). -/
def timeOfBackupName (name : String) : Nat :=
  match (splitOnChar (Char.ofNat 45) name.toList)[1]? with
  | none => 0
  | some s => (parseIntJS s).getD 0

/-- Stable insertion for a descending sort by key `f` (equal keys keep their
original relative order, as in JS `Array.prototype.sort`). -/
def insertDescBy (f : β → Nat) (x : β) : List β → List β
  | [] => [x]
  | y :: ys => if f y < f x then x :: y :: ys else y :: insertDescBy f x ys

/-- Stable descending sort by key `f`. -/
def sortDescBy (f : β → Nat) (l : List β) : List β :=
  l.foldl (fun acc x => insertDescBy f x acc) []

/-- `this.maxBackups`. -/
def maxBackups : Nat := 10

/-- `this.maxRetries`. -/
def maxRetries : Nat := 3

/-- The filename filter of `_cleanupOldBackups`: only `backup-` and
`pre-write-` prefixed files are candidates for eviction. -/
def cleanupEligible (name : String) : Bool :=
  strStartsWith name "backup-" || strStartsWith name "pre-write-"

/-- `_cleanupOldBackups()`: among the eligible files, sorted newest-first by
the parsed key, delete everything past the first `maxBackups` entries. Its
own errors are swallowed in the source; no fault is injected here. -/
def cleanupOldBackups (bs : List (String × FileData α)) :
    List (String × FileData α) :=
  let files := bs.filter (fun b => cleanupEligible b.1)
  let sorted := sortDescBy (fun b => timeOfBackupName b.1) files
  let doomed := (sorted.drop maxBackups).map (fun b => b.1)
  bs.filter (fun b => !(doomed.contains b.1))

/-- `_findLatestBackup(prefix)`: the lexicographically greatest filename with
that prefix (`filter → sort → reverse → [0]`), with its contents. -/
def findLatestBackup (pref : String) (bs : List (String × FileData α)) :
    Option (String × FileData α) :=
  (bs.filter (fun b => strStartsWith b.1 pref)).foldl
    (fun acc b =>
      match acc with
      | none => some b
      | some a => if strLt a.1.toList b.1.toList then some b else some a) none

/-- Temp files older than five minutes are purged by
`_cleanupOldTempFiles` (errors swallowed). -/
def tempMaxAge : Int := 300000

/-- `_cleanupOldTempFiles()`. -/
def cleanupOldTempFiles (now : Int) (fs : FS α) : FS α :=
  { fs with temp := fs.temp.filter (fun t => decide (now - t.2 ≤ tempMaxAge)) }

/-- Injected transient-I/O faults for one attempt of `_atomicWriteFile`:
the temp write throws, the read-back verification fails, the pre-write
backup copy throws, or the rename throws. -/
structure AttemptFaults where
  tempWrite : Bool
  tempReadBad : Bool
  copyFail : Bool
  renameFail : Bool
deriving Repr

/-- Injected transient-I/O faults for one `saveTransaction` /
`loadWithRecovery` run: the backup read/write, the WAL write, the
post-rename verification read, the WAL completion write, and each retry
attempt of the atomic write. -/
structure FaultPlan where
  backupRead : Bool
  backupWrite : Bool
  walWrite : Bool
  verifyRead : Bool
  completeWrite : Bool
  attempt : Nat → AttemptFaults

/-- An attempt with no injected faults. -/
def noAttemptFaults : AttemptFaults := ⟨false, false, false, false⟩

/-- A run with no injected faults. -/
def noFaults : FaultPlan := ⟨false, false, false, false, false, fun _ => noAttemptFaults⟩

/-- The errors the module can throw. `refErrorBackupPath` is the
`ReferenceError` raised by `saveTransaction`'s own catch block, which reads
the `backupPath` constant that is scoped to the try block. -/
inductive Err where
  | ioBackupRead
  | ioBackupWrite
  | ioWalWrite
  | ioTempWrite
  | verifyTempMismatch
  | ioCopyBackup
  | ioRename
  | retriesExhausted
  | refErrorBackupPath
  | corruptState
deriving DecidableEq, Repr

/-- `_createBackup(operation)`: nothing to do when no data file exists;
otherwise read the data file, write its contents under a fresh backup name,
then run `_cleanupOldBackups`. Read/write failures rethrow. -/
def createBackup (plan : FaultPlan) (operation : String) (now : Int)
    (hash : String) (fs : FS α) : Except Err (Option String) × FS α :=
  match fs.dataFile with
  | none => (Except.ok none, fs)
  | some d =>
    if plan.backupRead then (Except.error Err.ioBackupRead, fs)
    else if plan.backupWrite then (Except.error Err.ioBackupWrite, fs)
    else
      let name := generateBackupName operation now hash
      (Except.ok (some name),
        { fs with backups := cleanupOldBackups (putFile fs.backups name d) })

/-- `_writeWalEntry(operation, data)`: write a fresh WAL file with status
`pending`. -/
def writeWalEntry (plan : FaultPlan) (operation : String) (now : Int)
    (hash : String) (fs : FS α) : Except Err String × FS α :=
  if plan.walWrite then (Except.error Err.ioWalWrite, fs)
  else
    let name := generateWalName now hash
    (Except.ok name,
      { fs with wal := putFile fs.wal name ⟨now, operation, WalStatus.pending, none⟩ })

/-- One attempt of `_atomicWriteFile`, in source order: write the temp file,
read it back and compare, copy the existing destination to a `pre-write`
backup, rename the temp file over the destination (the atomicity boundary),
then purge old temp files. Every mutation made before a throw persists. -/
def attemptOnce (plan : FaultPlan) (S : α) (now : Int) (hash : String)
    (retryCount : Nat) (fs : FS α) : Except Err Unit × FS α :=
  let af := plan.attempt retryCount
  if af.tempWrite then (Except.error Err.ioTempWrite, fs)
  else
    let tempName := "tmp-" ++ toString now ++ "-" ++ hash ++ "t"
      ++ toString retryCount ++ ".json"
    let fs1 := { fs with temp := putFile fs.temp tempName now }
    if af.tempReadBad then (Except.error Err.verifyTempMismatch, fs1)
    else
      match fs1.dataFile with
      | some d =>
        if af.copyFail then (Except.error Err.ioCopyBackup, fs1)
        else
          let bname := generateBackupName "pre-write" now
            (hash ++ "b" ++ toString retryCount)
          let fs2 := { fs1 with backups := putFile fs1.backups bname d }
          if af.renameFail then (Except.error Err.ioRename, fs2)
          else
            (Except.ok (), cleanupOldTempFiles now
              { fs2 with dataFile := some (FileData.good S),
                         temp := eraseFile fs2.temp tempName })
      | none =>
        if af.renameFail then (Except.error Err.ioRename, fs1)
        else
          (Except.ok (), cleanupOldTempFiles now
            { fs1 with dataFile := some (FileData.good S),
                       temp := eraseFile fs1.temp tempName })

/-- The retry loop of `_atomicWriteFile`: on a throw, retry with the next
attempt while fuel (remaining retries, initially `maxRetries`) lasts, then
give up with the wrapping `Failed to write file after N retries` error. -/
def atomicWriteGo (plan : FaultPlan) (S : α) (now : Int) (hash : String) :
    Nat → Nat → FS α → Except Err Unit × FS α
  | 0, retryCount, fs =>
    match attemptOnce plan S now hash retryCount fs with
    | (Except.ok _, fs') => (Except.ok (), fs')
    | (Except.error _, fs') => (Except.error Err.retriesExhausted, fs')
  | fuel + 1, retryCount, fs =>
    match attemptOnce plan S now hash retryCount fs with
    | (Except.ok _, fs') => (Except.ok (), fs')
    | (Except.error _, fs') => atomicWriteGo plan S now hash fuel (retryCount + 1) fs'

/-- `_atomicWriteFile(filePath, data)`. -/
def atomicWriteFile (plan : FaultPlan) (S : α) (now : Int) (hash : String)
    (fs : FS α) : Except Err Unit × FS α :=
  atomicWriteGo plan S now hash maxRetries 0 fs

/-- Rewrite the WAL file of that name with status `completed` and a
`completedAt` stamp. -/
def markCompleted (l : List (String × WalEntry)) (name : String) (now : Int) :
    List (String × WalEntry) :=
  l.map (fun p =>
    if p.1 == name then
      (p.1, { p.2 with status := WalStatus.completed, completedAt := some now })
    else p)

/-- Rewrite the WAL file of that name with status `recovered`. -/
def markRecovered (l : List (String × WalEntry)) (name : String) :
    List (String × WalEntry) :=
  l.map (fun p =>
    if p.1 == name then (p.1, { p.2 with status := WalStatus.recovered }) else p)

/-- `_completeWalEntry(walPath)`: if the file exists, mark it `completed`
with a `completedAt` stamp; all errors are swallowed (a fault leaves the
entry pending). -/
def completeWalEntry (plan : FaultPlan) (now : Int) (walName : String)
    (fs : FS α) : FS α :=
  if plan.completeWrite then fs
  else if fs.wal.any (fun p => p.1 == walName) then
    { fs with wal := markCompleted fs.wal walName now }
  else fs

/-- The caller-visible part of a successful transaction result. -/
structure TxResult where
  transactionId : String
  backup : Option String
  wal : String
deriving DecidableEq, Repr

/-- `saveTransaction(data, operationName)`: backup, WAL entry, atomic write,
re-read verification, WAL completion. Any throw lands in the catch block,
which itself throws a `ReferenceError` (it reads `backupPath`, a `const`
scoped to the try block), so every failure surfaces as
`Err.refErrorBackupPath` while all state mutations made so far persist. -/
def saveTransaction [DecidableEq α] (plan : FaultPlan) (S : α)
    (operationName : String) (now : Int) (hx h1 h2 h3 : String) (fs : FS α) :
    Except Err TxResult × FS α :=
  let transactionId := "txn-" ++ toString now ++ "-" ++ hx
  match createBackup plan (operationName ++ "-" ++ toString now) now h1 fs with
  | (Except.error _, fs1) => (Except.error Err.refErrorBackupPath, fs1)
  | (Except.ok backupPath, fs1) =>
    match writeWalEntry plan operationName now h2 fs1 with
    | (Except.error _, fs2) => (Except.error Err.refErrorBackupPath, fs2)
    | (Except.ok walName, fs2) =>
      match atomicWriteFile plan S now h3 fs2 with
      | (Except.error _, fs3) => (Except.error Err.refErrorBackupPath, fs3)
      | (Except.ok _, fs3) =>
        if plan.verifyRead then (Except.error Err.refErrorBackupPath, fs3)
        else
          match fs3.dataFile with
          | some (FileData.good v) =>
            if v = S then
              (Except.ok ⟨transactionId, backupPath, walName⟩,
                completeWalEntry plan now walName fs3)
            else (Except.error Err.refErrorBackupPath, fs3)
          | _ => (Except.error Err.refErrorBackupPath, fs3)

/-- One iteration of the `recoverFromWal` loop, for one file of the WAL
directory listing: a `wal-` file whose entry is `pending` causes the latest
`pre-write` backup (when one exists) to be copied over the destination, and
the entry is marked `recovered` either way. -/
def recoverOne (fs : FS α) (name : String) : FS α :=
  if strStartsWith name "wal-" then
    match lookupFile fs.wal name with
    | none => fs
    | some e =>
      if e.status = WalStatus.pending then
        let fs1 :=
          match findLatestBackup "pre-write" fs.backups with
          | some b => { fs with dataFile := some b.2 }
          | none => fs
        { fs1 with wal := markRecovered fs1.wal name }
      else fs
  else fs

/-- `recoverFromWal()`: replay every pending entry of the WAL directory
listing. -/
def recoverFromWal (fs : FS α) : FS α :=
  (fs.wal.map (fun p => p.1)).foldl recoverOne fs

/-- What `loadWithRecovery` returns: the parsed state, or the defined empty
state `{submissions: {}, winners: {}}` of a first run. -/
inductive LoadVal (α : Type) where
  | fresh
  | state (v : α)
deriving DecidableEq, Repr

/-- `loadWithRecovery()`: WAL recovery first; a missing destination yields
the fresh empty state; a parsable destination is returned; an unparsable one
falls to the catch block, which parses the latest `pre-write` backup, copies
it over the destination and returns it — rethrowing the original parse error
when there is no such backup or it is itself unparsable. -/
def loadWithRecovery (fs : FS α) : Except Err (LoadVal α) × FS α :=
  let fs1 := recoverFromWal fs
  match fs1.dataFile with
  | none => (Except.ok LoadVal.fresh, fs1)
  | some (FileData.good v) => (Except.ok (LoadVal.state v), fs1)
  | some FileData.corrupt =>
    match findLatestBackup "pre-write" fs1.backups with
    | some (_, FileData.good v) =>
      (Except.ok (LoadVal.state v), { fs1 with dataFile := some (FileData.good v) })
    | some (_, FileData.corrupt) => (Except.error Err.corruptState, fs1)
    | none => (Except.error Err.corruptState, fs1)

/-- `getMetrics()`: observability counters. `backupsCount` counts every file
of the backup directory. -/
structure Metrics where
  dataFileExists : Bool
  backupsCount : Nat
  backupsMaxRetained : Nat
  walCount : Nat
  tempCount : Nat
deriving DecidableEq, Repr

/-- `getMetrics()` over the modeled file-system state. -/
def getMetrics (fs : FS α) : Metrics :=
  ⟨fs.dataFile.isSome, fs.backups.length, maxBackups,
    (fs.wal.filter (fun p => strStartsWith p.1 "wal-")).length, fs.temp.length⟩

/-- Whether an `Except` result is a success. -/
def exceptIsOk : Except ε β → Bool
  | Except.ok _ => true
  | Except.error _ => false

/-- Every name written by `putFile` is present afterwards. -/
theorem putFile_any_self (l : List (String × β)) (n : String) (c : β) :
    (putFile l n c).any (fun p => p.1 == n) = true := by
  unfold putFile
  split
  · rename_i h
    simp only [List.any_eq_true] at h ⊢
    obtain ⟨q, hq, hqn⟩ := h
    refine ⟨(n, c), ?_, by simp⟩
    exact List.mem_map.mpr ⟨q, hq, by simp [hqn]⟩
  · simp

/-- A member of `putFile l n c` whose name is not `n` was already in `l`. -/
theorem mem_putFile_of_ne (l : List (String × β)) (n : String) (c : β)
    (p : String × β) (hp : p ∈ putFile l n c) (hne : (p.1 == n) = false) :
    p ∈ l := by
  unfold putFile at hp
  split at hp
  · rcases List.mem_map.mp hp with ⟨q, hq, rfl⟩
    by_cases hqn : (q.1 == n) = true
    · simp [hqn] at hne
    · simpa [hqn] using hq
  · rcases List.mem_append.mp hp with h | h
    · exact h
    · simp at h
      subst h
      simp at hne

/-- After completing the freshly written WAL entry, no entry is pending
provided none was pending before the write. -/
theorem pending_free_markCompleted_putFile (l : List (String × WalEntry))
    (n : String) (e : WalEntry) (now : Int)
    (h : ∀ p ∈ l, p.2.status ≠ WalStatus.pending) :
    ∀ p ∈ markCompleted (putFile l n e) n now, p.2.status ≠ WalStatus.pending := by
  intro p hp
  unfold markCompleted at hp
  rcases List.mem_map.mp hp with ⟨q, hq, rfl⟩
  by_cases hqn : (q.1 == n) = true
  · simp [hqn]
  · simp only [hqn, Bool.false_eq_true, if_false]
    exact h q (mem_putFile_of_ne l n e q hq (by simpa using hqn))

/-- `_cleanupOldTempFiles` only touches the temp directory. -/
theorem cleanupOldTempFiles_dataFile (now : Int) (fs : FS α) :
    (cleanupOldTempFiles now fs).dataFile = fs.dataFile := rfl

/-- `_cleanupOldTempFiles` only touches the temp directory. -/
theorem cleanupOldTempFiles_wal (now : Int) (fs : FS α) :
    (cleanupOldTempFiles now fs).wal = fs.wal := rfl

/-- `_completeWalEntry` only touches the WAL directory. -/
theorem completeWalEntry_dataFile (plan : FaultPlan) (now : Int) (n : String)
    (fs : FS α) : (completeWalEntry plan now n fs).dataFile = fs.dataFile := by
  unfold completeWalEntry
  split
  · rfl
  · split <;> rfl

/-- One recovery iteration does nothing when no WAL entry is pending. -/
theorem recoverOne_id (fs : FS α) (name : String)
    (h : ∀ p ∈ fs.wal, p.2.status ≠ WalStatus.pending) :
    recoverOne fs name = fs := by
  unfold recoverOne
  split
  · cases hlk : lookupFile fs.wal name with
    | none => rfl
    | some e =>
      have hnp : e.status ≠ WalStatus.pending := by
        unfold lookupFile at hlk
        rcases hfind : fs.wal.find? (fun p => p.1 == name) with _ | q
        · rw [hfind] at hlk
          simp at hlk
        · rw [hfind] at hlk
          simp at hlk
          have hqmem := List.mem_of_find?_eq_some hfind
          rw [← hlk]
          exact h q hqmem
      simp [hnp]
  · rfl

/-- `recoverFromWal` does nothing when no WAL entry is pending. -/
theorem recoverFromWal_id (fs : FS α)
    (h : ∀ p ∈ fs.wal, p.2.status ≠ WalStatus.pending) :
    recoverFromWal fs = fs := by
  unfold recoverFromWal
  have : ∀ names : List String, names.foldl recoverOne fs = fs := by
    intro names
    induction names with
    | nil => rfl
    | cons n ns ih => rw [List.foldl_cons, recoverOne_id fs n h, ih]
  exact this _

/-- A fault-free `saveTransaction` succeeds, leaves the destination holding
exactly the saved state, and leaves the WAL as before plus the new entry
marked `completed`. -/
theorem saveTransaction_noFaults {α : Type} [DecidableEq α] (S : α) (op : String)
    (now : Int) (hx h1 h2 h3 : String) (fs : FS α) :
    exceptIsOk (saveTransaction noFaults S op now hx h1 h2 h3 fs).1 = true ∧
    (saveTransaction noFaults S op now hx h1 h2 h3 fs).2.dataFile
        = some (FileData.good S) ∧
    (saveTransaction noFaults S op now hx h1 h2 h3 fs).2.wal
        = markCompleted
            (putFile fs.wal (generateWalName now h2) ⟨now, op, WalStatus.pending, none⟩)
            (generateWalName now h2) now := by
  obtain ⟨df, bs, wl, tp⟩ := fs
  cases df with
  | none =>
    refine ⟨?_, ?_, ?_⟩ <;>
      simp [saveTransaction, createBackup, writeWalEntry, atomicWriteFile,
        atomicWriteGo, attemptOnce, completeWalEntry, noFaults, noAttemptFaults,
        maxRetries, exceptIsOk, cleanupOldTempFiles, putFile_any_self]
  | some d =>
    refine ⟨?_, ?_, ?_⟩ <;>
      simp [saveTransaction, createBackup, writeWalEntry, atomicWriteFile,
        atomicWriteGo, attemptOnce, completeWalEntry, noFaults, noAttemptFaults,
        maxRetries, exceptIsOk, cleanupOldTempFiles, putFile_any_self]


/-- Whether one attempt of the atomic write throws under its injected
faults: the temp write, the read-back verification, the pre-write copy (only
performed when a destination exists), or the rename. -/
def attemptFaulty (destExists : Bool) (af : AttemptFaults) : Bool :=
  af.tempWrite || af.tempReadBad || (destExists && af.copyFail) || af.renameFail

/-- The step-failure disjunction of `saveTransaction`: backup creation fails
(a destination exists and its read or the backup write faults), the WAL
write fails, every retry attempt of the atomic write fails, or the final
verification read fails. -/
def saveFailCause (plan : FaultPlan) (destExists : Bool) : Bool :=
  (destExists && (plan.backupRead || plan.backupWrite)) || plan.walWrite ||
    (List.range (maxRetries + 1)).all
      (fun i => attemptFaulty destExists (plan.attempt i)) ||
    plan.verifyRead

/-- One atomic-write attempt: it fails exactly under `attemptFaulty`; on
success the destination holds the new state, on failure it is unchanged. -/
theorem attemptOnce_spec (plan : FaultPlan) (S : α) (now : Int) (h : String)
    (r : Nat) (fs : FS α) :
    (exceptIsOk (attemptOnce plan S now h r fs).1
        = !(attemptFaulty fs.dataFile.isSome (plan.attempt r))) ∧
    (exceptIsOk (attemptOnce plan S now h r fs).1 = true →
      (attemptOnce plan S now h r fs).2.dataFile = some (FileData.good S)) ∧
    (exceptIsOk (attemptOnce plan S now h r fs).1 = false →
      (attemptOnce plan S now h r fs).2.dataFile = fs.dataFile) := by
  obtain ⟨df, bs, wl, tp⟩ := fs
  rcases haf : plan.attempt r with ⟨tw, trb, cf, rf⟩
  cases df <;> cases tw <;> cases trb <;> cases cf <;> cases rf <;>
    simp [attemptOnce, attemptFaulty, exceptIsOk, cleanupOldTempFiles, haf]

/-- The retry loop: success yields a destination holding the new state;
failure (all attempts in range faulty) leaves the destination unchanged, and
conversely the loop fails whenever every attempt in range is faulty. -/
theorem atomicWriteGo_spec (plan : FaultPlan) (S : α) (now : Int) (h : String) :
    ∀ (fuel r : Nat) (fs : FS α),
      (exceptIsOk (atomicWriteGo plan S now h fuel r fs).1 = true →
        (atomicWriteGo plan S now h fuel r fs).2.dataFile
          = some (FileData.good S)) ∧
      (exceptIsOk (atomicWriteGo plan S now h fuel r fs).1 = false →
        (atomicWriteGo plan S now h fuel r fs).2.dataFile = fs.dataFile ∧
        ∀ i, r ≤ i → i ≤ r + fuel →
          attemptFaulty fs.dataFile.isSome (plan.attempt i) = true) ∧
      ((∀ i, r ≤ i → i ≤ r + fuel →
          attemptFaulty fs.dataFile.isSome (plan.attempt i) = true) →
        exceptIsOk (atomicWriteGo plan S now h fuel r fs).1 = false) := by
  intro fuel
  induction fuel with
  | zero =>
    intro r fs
    obtain ⟨hb, hok, herr⟩ := attemptOnce_spec plan S now h r fs
    rcases hao : attemptOnce plan S now h r fs with ⟨res, fs'⟩
    rw [hao] at hb hok herr
    cases res with
    | ok u =>
      simp only [exceptIsOk] at hb hok
      refine ⟨?_, ?_, ?_⟩
      · intro _
        simpa [atomicWriteGo, hao] using hok trivial
      · intro hfalse
        simp [atomicWriteGo, hao, exceptIsOk] at hfalse
      · intro hall
        have := hall r le_rfl (by omega)
        rw [this] at hb
        simp at hb
    | error e =>
      simp only [exceptIsOk] at hb herr
      refine ⟨?_, ?_, ?_⟩
      · intro htrue
        simp [atomicWriteGo, hao, exceptIsOk] at htrue
      · intro _
        refine ⟨by simpa [atomicWriteGo, hao] using herr trivial, ?_⟩
        intro i hri hir
        have hi : i = r := by omega
        subst hi
        have hfa := hb.symm
        simp at hfa
        exact hfa
      · intro _
        simp [atomicWriteGo, hao, exceptIsOk]
  | succ fuel ih =>
    intro r fs
    obtain ⟨hb, hok, herr⟩ := attemptOnce_spec plan S now h r fs
    rcases hao : attemptOnce plan S now h r fs with ⟨res, fs'⟩
    rw [hao] at hb hok herr
    cases res with
    | ok u =>
      simp only [exceptIsOk] at hb hok
      refine ⟨?_, ?_, ?_⟩
      · intro _
        simpa [atomicWriteGo, hao] using hok trivial
      · intro hfalse
        simp [atomicWriteGo, hao, exceptIsOk] at hfalse
      · intro hall
        have := hall r le_rfl (by omega)
        rw [this] at hb
        simp at hb
    | error e =>
      simp only [exceptIsOk] at hb herr
      have hdf : fs'.dataFile = fs.dataFile := herr trivial
      have hgo : atomicWriteGo plan S now h (fuel + 1) r fs
          = atomicWriteGo plan S now h fuel (r + 1) fs' := by
        simp [atomicWriteGo, hao]
      obtain ⟨ihok, iherr, ihall⟩ := ih (r + 1) fs'
      rw [hgo]
      refine ⟨ihok, ?_, ?_⟩
      · intro hfalse
        obtain ⟨hdf2, hfaulty⟩ := iherr hfalse
        refine ⟨by rw [hdf2, hdf], ?_⟩
        intro i hri hir
        rcases Nat.eq_or_lt_of_le hri with hi | hi
        · subst hi
          have hfa := hb.symm
          simp at hfa
          exact hfa
        · have := hfaulty i (by omega) (by omega)
          rwa [hdf] at this
      · intro hall
        apply ihall
        intro i hri hir
        rw [hdf]
        exact hall i (by omega) (by omega)

/-- `_createBackup`: fails exactly when a destination exists and its read or
the backup write faults; it never touches the destination or the WAL, and on
failure the state is fully unchanged. -/
theorem createBackup_spec (plan : FaultPlan) (op : String) (now : Int)
    (h : String) (fs : FS α) :
    (exceptIsOk (createBackup plan op now h fs).1
        = !(fs.dataFile.isSome && (plan.backupRead || plan.backupWrite))) ∧
    ((createBackup plan op now h fs).2.dataFile = fs.dataFile) ∧
    ((createBackup plan op now h fs).2.wal = fs.wal) ∧
    (exceptIsOk (createBackup plan op now h fs).1 = false →
      (createBackup plan op now h fs).2 = fs) := by
  obtain ⟨df, bs, wl, tp⟩ := fs
  cases df <;> cases hbr : plan.backupRead <;> cases hbw : plan.backupWrite <;>
    simp [createBackup, exceptIsOk, hbr, hbw]

/-- `_writeWalEntry`: fails exactly when the WAL write faults; it never
touches the destination, and on failure the state is fully unchanged. -/
theorem writeWalEntry_spec (plan : FaultPlan) (op : String) (now : Int)
    (h : String) (fs : FS α) :
    (exceptIsOk (writeWalEntry plan op now h fs).1 = !plan.walWrite) ∧
    ((writeWalEntry plan op now h fs).2.dataFile = fs.dataFile) ∧
    (exceptIsOk (writeWalEntry plan op now h fs).1 = false →
      (writeWalEntry plan op now h fs).2 = fs) := by
  cases hww : plan.walWrite <;> simp [writeWalEntry, exceptIsOk, hww]


end AP

-- Decidable equality of `Except` results at decidable components.
deriving instance DecidableEq for Except

/-- Claim C1 (amended): if the WAL holds no pending entry (recovery already
ran and completed), then a fault-free `saveTransaction(S, _)` reports
success and a subsequent `loadWithRecovery()` with no intervening write
returns exactly `S`. Without that proviso the claim fails:
see the counterexample, where a stale pending WAL entry makes
`loadWithRecovery` restore the pre-write backup over the freshly saved
state. -/
theorem C1_save_load_roundtrip {α : Type} [DecidableEq α] (S : α) (op : String)
    (now : Int) (hx h1 h2 h3 : String) (fs : AP.FS α)
    (hw : ∀ p ∈ fs.wal, p.2.status ≠ AP.WalStatus.pending) :
    AP.exceptIsOk (AP.saveTransaction AP.noFaults S op now hx h1 h2 h3 fs).1 = true ∧
    (AP.loadWithRecovery (AP.saveTransaction AP.noFaults S op now hx h1 h2 h3 fs).2).1
      = Except.ok (AP.LoadVal.state S) := by
  obtain ⟨hok, hdf, hwal⟩ := AP.saveTransaction_noFaults S op now hx h1 h2 h3 fs
  refine ⟨hok, ?_⟩
  have hpf : ∀ p ∈ (AP.saveTransaction AP.noFaults S op now hx h1 h2 h3 fs).2.wal,
      p.2.status ≠ AP.WalStatus.pending := by
    rw [hwal]
    exact AP.pending_free_markCompleted_putFile fs.wal _ _ now hw
  simp [AP.loadWithRecovery, AP.recoverFromWal_id _ hpf, hdf]

/-- Witness for C1 at a concrete input: a first run (no data file, empty
WAL), saving the state 5. -/
theorem C1_save_load_roundtrip_witness :
    (∀ p ∈ (⟨none, [], [], []⟩ : AP.FS Nat).wal,
        p.2.status ≠ AP.WalStatus.pending) ∧
    (AP.exceptIsOk
        (AP.saveTransaction AP.noFaults 5 "save" 1 "x" "a" "b" "c"
          ⟨none, [], [], []⟩).1 = true ∧
     (AP.loadWithRecovery
        (AP.saveTransaction AP.noFaults 5 "save" 1 "x" "a" "b" "c"
          ⟨none, [], [], []⟩).2).1 = Except.ok (AP.LoadVal.state 5)) :=
  ⟨by simp,
   C1_save_load_roundtrip 5 "save" 1 "x" "a" "b" "c" ⟨none, [], [], []⟩ (by simp)⟩

/-- The file-system state of the C1 counterexample: a destination holding
state 0, no backups, and one stale pending WAL entry left over from an
earlier crashed transaction. -/
def c1cfs : AP.FS Nat :=
  ⟨some (AP.FileData.good 0), [],
    [("wal-1-aa.json", ⟨1, "old", AP.WalStatus.pending, none⟩)], []⟩

/-- Counterexample to C1 as stated: from `c1cfs`, a fault-free
`saveTransaction(1, "save")` reports success, yet the immediately following
`loadWithRecovery()` (no intervening write) returns state 0, not the saved
state 1 — `recoverFromWal` sees the stale pending entry and restores the
`pre-write` backup (the pre-transaction state) over the new data. -/
theorem C1_roundtrip_counterexample :
    AP.exceptIsOk
        (AP.saveTransaction AP.noFaults 1 "save" 10 "x" "a" "b" "c" c1cfs).1
      = true ∧
    (AP.loadWithRecovery
        (AP.saveTransaction AP.noFaults 1 "save" 10 "x" "a" "b" "c" c1cfs).2).1
      = Except.ok (AP.LoadVal.state 0) ∧
    (AP.loadWithRecovery
        (AP.saveTransaction AP.noFaults 1 "save" 10 "x" "a" "b" "c" c1cfs).2).1
      ≠ Except.ok (AP.LoadVal.state 1) := by
  refine ⟨by decide, by decide, by decide⟩

/-- Claim C2 (amended): `saveTransaction` reports failure by throwing — and
the failure handler itself throws a `ReferenceError` (reading the
out-of-scope `backupPath`), masking the underlying error — exactly when
backup creation, the WAL write, all retry attempts of the atomic write, or
the final verification read fail; in every failure case arising before the
rename the destination still holds its pre-transaction content, and in every
failure case whatsoever it holds either the pre-transaction content or the
fully written new state (when the post-rename verification fails the new
state is already in place — see the counterexample against the original
claim). -/
theorem C2_failure_semantics {α : Type} [DecidableEq α] (plan : AP.FaultPlan)
    (S : α) (op : String) (now : Int) (hx h1 h2 h3 : String) (fs : AP.FS α) :
    (∀ e, (AP.saveTransaction plan S op now hx h1 h2 h3 fs).1 = Except.error e →
        e = AP.Err.refErrorBackupPath ∧
        ((AP.saveTransaction plan S op now hx h1 h2 h3 fs).2.dataFile
            = fs.dataFile ∨
         (plan.verifyRead = true ∧
          (AP.saveTransaction plan S op now hx h1 h2 h3 fs).2.dataFile
            = some (AP.FileData.good S))) ∧
        AP.saveFailCause plan fs.dataFile.isSome = true) ∧
    (AP.saveFailCause plan fs.dataFile.isSome = false →
      AP.exceptIsOk (AP.saveTransaction plan S op now hx h1 h2 h3 fs).1 = true) := by
  obtain ⟨hcb1, hcb2, hcb3, hcb4⟩ :=
    AP.createBackup_spec plan (op ++ "-" ++ toString now) now h1 fs
  rcases hcb : AP.createBackup plan (op ++ "-" ++ toString now) now h1 fs
    with ⟨cres, fs1⟩
  rw [hcb] at hcb1 hcb2 hcb3 hcb4
  cases cres with
  | error e1 =>
    have hsv : AP.saveTransaction plan S op now hx h1 h2 h3 fs
        = (Except.error AP.Err.refErrorBackupPath, fs1) := by
      simp [AP.saveTransaction, hcb]
    have hfs1 : fs1 = fs := hcb4 (by simp [AP.exceptIsOk])
    have hcause : AP.saveFailCause plan fs.dataFile.isSome = true := by
      simp [AP.exceptIsOk] at hcb1
      have hdisj : plan.backupRead = true ∨ plan.backupWrite = true := by
        cases hbrv : plan.backupRead with
        | true => exact Or.inl rfl
        | false => exact Or.inr (hcb1.2 hbrv)
      rcases hdisj with hd | hd <;> simp [AP.saveFailCause, hcb1.1, hd]
    refine ⟨?_, ?_⟩
    · intro e he
      rw [hsv] at he
      simp at he
      subst he
      exact ⟨rfl, Or.inl (by rw [hsv, hfs1]), hcause⟩
    · intro hnc
      rw [hcause] at hnc
      simp at hnc
  | ok bp =>
    have hIs1 : fs1.dataFile = fs.dataFile := hcb2
    obtain ⟨hw1, hw2, hw3⟩ := AP.writeWalEntry_spec plan op now h2 fs1
    rcases hwwE : AP.writeWalEntry plan op now h2 fs1 with ⟨wres, fs2⟩
    rw [hwwE] at hw1 hw2 hw3
    cases wres with
    | error e2 =>
      have hsv : AP.saveTransaction plan S op now hx h1 h2 h3 fs
          = (Except.error AP.Err.refErrorBackupPath, fs2) := by
        simp [AP.saveTransaction, hcb, hwwE]
      have hww : plan.walWrite = true := by
        simp [AP.exceptIsOk] at hw1
        exact hw1
      have hcause : AP.saveFailCause plan fs.dataFile.isSome = true := by
        simp [AP.saveFailCause, hww]
      refine ⟨?_, ?_⟩
      · intro e he
        rw [hsv] at he
        simp at he
        subst he
        refine ⟨rfl, Or.inl ?_, hcause⟩
        rw [hsv]
        show fs2.dataFile = fs.dataFile
        have hw2x : fs2.dataFile = fs1.dataFile := hw2
        rw [hw2x, hIs1]
      · intro hnc
        rw [hcause] at hnc
        simp at hnc
    | ok wname =>
      have hw2x : fs2.dataFile = fs1.dataFile := hw2
      have hIs2 : fs2.dataFile = fs.dataFile := by rw [hw2x, hIs1]
      obtain ⟨ha1, ha2, ha3⟩ := AP.atomicWriteGo_spec plan S now h3 AP.maxRetries 0 fs2
      rcases hawE : AP.atomicWriteGo plan S now h3 AP.maxRetries 0 fs2
        with ⟨ares, fs3⟩
      rw [hawE] at ha1 ha2 ha3
      cases ares with
      | error e3 =>
        have hsv : AP.saveTransaction plan S op now hx h1 h2 h3 fs
            = (Except.error AP.Err.refErrorBackupPath, fs3) := by
          simp [AP.saveTransaction, hcb, hwwE, AP.atomicWriteFile, hawE]
        obtain ⟨hdf3, hfaulty⟩ := ha2 (by simp [AP.exceptIsOk])
        have hcause : AP.saveFailCause plan fs.dataFile.isSome = true := by
          have hall : (List.range (AP.maxRetries + 1)).all
              (fun i => AP.attemptFaulty fs.dataFile.isSome (plan.attempt i))
                = true := by
            simp only [List.all_eq_true, List.mem_range, Nat.lt_succ_iff]
            intro i hi
            have := hfaulty i (by omega) (by omega)
            rwa [hIs2] at this
          simp [AP.saveFailCause, hall]
        refine ⟨?_, ?_⟩
        · intro e he
          rw [hsv] at he
          simp at he
          subst he
          refine ⟨rfl, Or.inl ?_, hcause⟩
          rw [hsv]
          show fs3.dataFile = fs.dataFile
          have hdf3x : fs3.dataFile = fs2.dataFile := hdf3
          rw [hdf3x, hIs2]
        · intro hnc
          rw [hcause] at hnc
          simp at hnc
      | ok u =>
        have hdf3 : fs3.dataFile = some (AP.FileData.good S) :=
          ha1 (by simp [AP.exceptIsOk])
        cases hvr : plan.verifyRead with
        | true =>
          have hsv : AP.saveTransaction plan S op now hx h1 h2 h3 fs
              = (Except.error AP.Err.refErrorBackupPath, fs3) := by
            simp [AP.saveTransaction, hcb, hwwE, AP.atomicWriteFile, hawE, hvr]
          have hcause : AP.saveFailCause plan fs.dataFile.isSome = true := by
            simp [AP.saveFailCause, hvr]
          refine ⟨?_, ?_⟩
          · intro e he
            rw [hsv] at he
            simp at he
            subst he
            exact ⟨rfl, Or.inr ⟨rfl, by rw [hsv]; exact hdf3⟩, hcause⟩
          · intro hnc
            rw [hcause] at hnc
            simp at hnc
        | false =>
          have hsv : AP.exceptIsOk
              (AP.saveTransaction plan S op now hx h1 h2 h3 fs).1 = true := by
            simp [AP.saveTransaction, hcb, hwwE, AP.atomicWriteFile, hawE, hvr,
              hdf3, AP.exceptIsOk]
          refine ⟨?_, fun _ => hsv⟩
          intro e he
          rw [he] at hsv
          simp [AP.exceptIsOk] at hsv

/-- The fault plan of the C2 counterexample: everything succeeds except the
post-rename verification read (step 4 of `saveTransaction`). -/
def c2plan : AP.FaultPlan := ⟨false, false, false, true, false, fun _ => AP.noAttemptFaults⟩

/-- The pre-transaction state of the C2 counterexample. -/
def c2fs : AP.FS Nat := ⟨some (AP.FileData.good 0), [], [], []⟩

/-- Counterexample to C2 as stated: when the final verification read fails,
`saveTransaction` reports failure (throwing the masking `ReferenceError`,
not the underlying error), yet the destination file already holds the new
state 1, not its pre-transaction content 0 — the rename has already
happened, so "in every failure case the destination still holds its
pre-transaction content" is false. -/
theorem C2_atomicity_counterexample :
    (AP.saveTransaction c2plan 1 "save" 10 "x" "a" "b" "c" c2fs).1
      = Except.error AP.Err.refErrorBackupPath ∧
    c2fs.dataFile = some (AP.FileData.good 0) ∧
    (AP.saveTransaction c2plan 1 "save" 10 "x" "a" "b" "c" c2fs).2.dataFile
      = some (AP.FileData.good 1) ∧
    (AP.saveTransaction c2plan 1 "save" 10 "x" "a" "b" "c" c2fs).2.dataFile
      ≠ c2fs.dataFile := by
  refine ⟨by decide, by decide, by decide, by decide⟩

/-- The initial state of the C3 run: a destination file already exists. -/
def c3fs0 : AP.FS Nat := ⟨some (AP.FileData.good 0), [], [], []⟩

/-- Six consecutive fault-free `saveTransaction` calls with distinct
timestamps and identifiers, collecting each call's success flag. -/
def c3run : List Bool × AP.FS Nat :=
  (List.range 6).foldl
    (fun (acc : List Bool × AP.FS Nat) (i : Nat) =>
      let r := AP.saveTransaction AP.noFaults i "save" (Int.ofNat (100 + i))
        ("x" ++ toString i) ("a" ++ toString i) ("b" ++ toString i)
        ("c" ++ toString i) acc.2
      (acc.1 ++ [AP.exceptIsOk r.1], r.2))
    ([], c3fs0)

/-- Claim C3 fails on the code (code bug): after six successful transactions
the backup directory holds 12 files — six `save-<ts>-…` snapshots from
`_createBackup` (whose names match neither `backup-` nor `pre-write-`, so
`_cleanupOldBackups` never evicts them) and six `pre-write-…` copies — which
exceeds `maxBackups = 10`, contradicting the retention invariant the code's
own cleanup routine and documentation intend. -/
theorem C3_backup_retention_exceeded :
    c3run.1 = [true, true, true, true, true, true] ∧
    (AP.getMetrics c3run.2).backupsCount = 12 ∧
    AP.maxBackups < (AP.getMetrics c3run.2).backupsCount := by
  refine ⟨by decide, by decide, by decide⟩

/-- Claim C8 (amended): with no pending WAL entry (so WAL replay does not
rewrite the destination first), `loadWithRecovery` behaves as claimed except
that only `pre-write`-prefixed backups are considered: a missing destination
yields the defined empty state; a corrupt destination is recovered from the
latest available `pre-write` backup (restored over the destination and
returned); and the error is surfaced — never silently defaulted — when no
`pre-write` backup exists or the recovery parse fails too. -/
theorem C8_load_recovery {α : Type} (fs : AP.FS α)
    (hnp : ∀ p ∈ fs.wal, p.2.status ≠ AP.WalStatus.pending) :
    (fs.dataFile = none →
      AP.loadWithRecovery fs = (Except.ok AP.LoadVal.fresh, fs)) ∧
    (fs.dataFile = some AP.FileData.corrupt →
      ((∀ name v, AP.findLatestBackup "pre-write" fs.backups
            = some (name, AP.FileData.good v) →
          AP.loadWithRecovery fs
            = (Except.ok (AP.LoadVal.state v),
               { fs with dataFile := some (AP.FileData.good v) })) ∧
       (AP.findLatestBackup "pre-write" fs.backups = none →
          (AP.loadWithRecovery fs).1 = Except.error AP.Err.corruptState) ∧
       (∀ name, AP.findLatestBackup "pre-write" fs.backups
            = some (name, AP.FileData.corrupt) →
          (AP.loadWithRecovery fs).1 = Except.error AP.Err.corruptState))) := by
  have hid := AP.recoverFromWal_id fs hnp
  refine ⟨?_, ?_⟩
  · intro hdf
    simp [AP.loadWithRecovery, hid, hdf]
  · intro hdf
    refine ⟨?_, ?_, ?_⟩
    · intro name v hfb
      simp [AP.loadWithRecovery, hid, hdf, hfb]
    · intro hfb
      simp [AP.loadWithRecovery, hid, hdf, hfb]
    · intro name hfb
      simp [AP.loadWithRecovery, hid, hdf, hfb]

/-- The file-system state of the C8 witness: a corrupt destination and one
parsable `pre-write` backup. -/
def c8wfs : AP.FS Nat :=
  ⟨some AP.FileData.corrupt, [("pre-write-5-aa.json", AP.FileData.good 7)], [], []⟩

/-- Witness for C8 at a concrete input: the corrupt destination is recovered
from the `pre-write` backup, which is restored over the destination and
returned. -/
theorem C8_load_recovery_witness :
    (∀ p ∈ c8wfs.wal, p.2.status ≠ AP.WalStatus.pending) ∧
    AP.loadWithRecovery c8wfs
      = (Except.ok (AP.LoadVal.state 7),
         { c8wfs with dataFile := some (AP.FileData.good 7) }) :=
  ⟨by decide,
   ((C8_load_recovery c8wfs (by decide)).2 rfl).1 "pre-write-5-aa.json" 7 (by decide)⟩

/-- The file-system state of the C8 counterexample: a corrupt destination
whose only backup is a parsable labeled snapshot (`save-…`), not a
`pre-write` one. -/
def c8fs : AP.FS Nat :=
  ⟨some AP.FileData.corrupt, [("save-5-aa.json", AP.FileData.good 7)], [], []⟩

/-- Counterexample to C8 as stated: a parsable backup is available, yet
`loadWithRecovery` escalates as unrecoverable — `_findLatestBackup` only
considers names with the `pre-write` prefix, so "restores the latest
available backup" is false for backups saved under other labels. -/
theorem C8_backup_prefix_counterexample :
    (AP.loadWithRecovery c8fs).1 = Except.error AP.Err.corruptState ∧
    ("save-5-aa.json", AP.FileData.good 7) ∈ c8fs.backups := by
  refine ⟨by decide, by decide⟩
